import Mathlib

set_option maxHeartbeats 1000000
set_option maxRecDepth 4000

/- Verification development for the VoiceInk-CN localization-tools scripts
   (precise_localizer.py, smart_localize.py, master_localizer.py,
   sync_strings.py).  Python strings are modelled as lists of characters,
   Python dicts over strings as association lists with insertion order. -/

/-- Python str is modelled as a list of characters. -/
abbrev Str := List Char

/-- Shorthand turning a Lean string literal into the character-list model. -/
def S (s : String) : Str := s.data

/-- Whitespace test used by Python str.strip and by the regex class backslash-s,
restricted to the ASCII whitespace characters, the only ones these scripts meet. -/
def pyIsSpace (c : Char) : Bool :=
  c == ' ' || c == '\t' || c == '\n' || c == '\r' || c == '\x0B' || c == '\x0C'

/-- Test for an ASCII letter, modelling the character class a-zA-Z. -/
def isAsciiLetter (c : Char) : Bool :=
  decide ((97 ≤ c.toNat ∧ c.toNat ≤ 122) ∨ (65 ≤ c.toNat ∧ c.toNat ≤ 90))

/-- Substring test, modelling the Python expression sub in l. -/
def containsSub (l sub : Str) : Bool :=
  match l with
  | [] => sub.isEmpty
  | c :: t => sub.isPrefixOf (c :: t) || containsSub t sub

/-- Removal of leading whitespace. -/
def stripL (l : Str) : Str := l.dropWhile pyIsSpace

/-- Removal of trailing whitespace. -/
def stripR : Str → Str
  | [] => []
  | c :: t =>
    let r := stripR t
    if r.isEmpty && pyIsSpace c then [] else c :: r

/-- Python str.strip with no argument: drop whitespace at both ends. -/
def strip (l : Str) : Str := stripL (stripR l)

/-- Python content.split with separator a single newline character. -/
def splitNl : Str → List Str
  | [] => [[]]
  | c :: t =>
    if c = '\n' then [] :: splitNl t
    else
      match splitNl t with
      | h :: r => (c :: h) :: r
      | [] => [[c]]

/-- Python newline.join over a list of lines. -/
def joinNl : List Str → Str
  | [] => []
  | [x] => x
  | x :: y :: ys => x ++ '\n' :: joinNl (y :: ys)

/-- Scanner for Python str.split with a multi-character separator: the first
argument counts separator characters still to be skipped after a match; at a
match the current chunk is closed and the rest of the separator is skipped. -/
def splitOnSeqAux (sep : Str) : Nat → Str → List Str
  | _, [] => [[]]
  | Nat.succ n, _ :: t => splitOnSeqAux sep n t
  | 0, c :: t =>
    if sep ≠ [] ∧ sep.isPrefixOf (c :: t) = true then
      [] :: splitOnSeqAux sep (sep.length - 1) t
    else
      match splitOnSeqAux sep 0 t with
      | h :: r => (c :: h) :: r
      | [] => [[c]]

/-- Python str.split with a nonempty multi-character separator sequence:
non-overlapping occurrences found left to right delimit the chunks. -/
def splitOnSeq (l sep : Str) : List Str := splitOnSeqAux sep 0 l

/-- Scanner for Python str.replace: the first argument counts pattern
characters still to be skipped after a match; at a match the replacement is
emitted and the rest of the matched pattern is skipped. -/
def replaceAllAux (pat rep : Str) : Nat → Str → Str
  | _, [] => []
  | Nat.succ n, _ :: t => replaceAllAux pat rep n t
  | 0, c :: t =>
    if pat ≠ [] ∧ pat.isPrefixOf (c :: t) = true then
      rep ++ replaceAllAux pat rep (pat.length - 1) t
    else
      c :: replaceAllAux pat rep 0 t

/-- Python str.replace with default count: every non-overlapping occurrence of
pat, found left to right, is replaced by rep.  For an empty pat the scripts
never call it; this model then returns the input unchanged. -/
def replaceAll (l pat rep : Str) : Str := replaceAllAux pat rep 0 l

/-- Modelled from the spec: replacement of only the first occurrence of the
pattern, used to compare the code against the first-occurrence-only wording. -/
def replace_first_spec (l pat rep : Str) : Str :=
  match l with
  | [] => []
  | c :: t =>
    if pat ≠ [] ∧ pat.isPrefixOf (c :: t) = true then
      rep ++ (c :: t).drop pat.length
    else
      c :: replace_first_spec t pat rep

/-- Strict lexicographic comparison of Python strings by code point. -/
def lexLt : Str → Str → Bool
  | [], [] => false
  | [], _ :: _ => true
  | _ :: _, [] => false
  | a :: as, b :: bs => if a < b then true else if b < a then false else lexLt as bs

/-- Lexicographic less-or-equal on Python strings. -/
def lexLe (a b : Str) : Bool := lexLt a b || a == b

/-- Tuple comparison used by Python sorted over dict items. -/
def pairLe (a b : Str × Str) : Bool :=
  lexLt a.1 b.1 || (a.1 == b.1 && lexLe a.2 b.2)

/-- Stable insertion step for sorting key-value pairs. -/
def insertPair (x : Str × Str) : List (Str × Str) → List (Str × Str)
  | [] => [x]
  | y :: ys => if pairLe x y then x :: y :: ys else y :: insertPair x ys

/-- Python sorted over dict items: stable ascending sort by tuple comparison. -/
def sortPairs : List (Str × Str) → List (Str × Str)
  | [] => []
  | x :: xs => insertPair x (sortPairs xs)

/-- Stable insertion step for sorting plain strings. -/
def insertStr (x : Str) : List Str → List Str
  | [] => [x]
  | y :: ys => if lexLe x y then x :: y :: ys else y :: insertStr x ys

/-- Python sorted over a collection of strings. -/
def sortStr : List Str → List Str
  | [] => []
  | x :: xs => insertStr x (sortStr xs)

/-- Python key-membership test on a dict modelled as an association list. -/
def containsKey (d : List (Str × Str)) (k : Str) : Bool :=
  d.any (fun p => p.1 == k)

/-- Python dict lookup returning the value for the first matching key. -/
def lookupStore (d : List (Str × Str)) (k : Str) : Option Str :=
  (d.find? (fun p => p.1 == k)).map (fun p => p.2)

/-- Python dict assignment d at k becomes v: overwrite in place when the key
exists, append otherwise, preserving insertion order. -/
def dictInsert (d : List (Str × Str)) (k v : Str) : List (Str × Str) :=
  if containsKey d k then d.map (fun p => if p.1 == k then (k, v) else p)
  else d ++ [(k, v)]

/- Embedding of precise_localizer.py. -/

/-- Configuration of PreciseLocalizer with the regular-expression engine left
abstract: uiMatches gives, for a line, the group-1 literals captured by the
non-overlapping matches of the positive ui_patterns in scan order;
avoidPatterns holds one Boolean matcher per entry of avoid_patterns, applied
to the whole line as re.search does; technicalIndicators holds one matcher per
technical indicator of is_code_logic, applied to the literal as re.match does. -/
structure PreciseConfig where
  uiMatches : Str → List Str
  avoidPatterns : List (Str → Bool)
  technicalIndicators : List (Str → Bool)

/-- Embedding of PreciseLocalizer.is_code_logic: a string is code logic when
the line matches some avoid pattern or the literal matches some technical
indicator pattern. -/
def is_code_logic (cfg : PreciseConfig) (line text : Str) : Bool :=
  cfg.avoidPatterns.any (fun p => p line) ||
    cfg.technicalIndicators.any (fun p => p text)

/-- Comment-line test of find_ui_strings: the stripped line starts with a line
comment, a block comment opener, or a block comment continuation star. -/
def isCommentLine (line : Str) : Bool :=
  let l := strip line
  (S "//").isPrefixOf l || (S "/*").isPrefixOf l || (S "*").isPrefixOf l

/-- Embedding of the per-line body of PreciseLocalizer.find_ui_strings:
comment lines yield nothing; every literal captured by a positive pattern is
kept only when it is not blank, not code logic, the line does not already
mention NSLocalizedString, and the literal is a key of the loaded
localizable_strings store; kept findings carry the stripped line. -/
def find_ui_strings_line (cfg : PreciseConfig) (store : List (Str × Str))
    (lineNum : Nat) (line : Str) : List (Nat × Str × Str) :=
  if isCommentLine line then [] else
  (cfg.uiMatches line).filterMap (fun text =>
    if (strip text).isEmpty || is_code_logic cfg line text then none
    else if containsSub line (S "NSLocalizedString") then none
    else if containsKey store text then some (lineNum, strip line, text)
    else none)

/-- Quoted form of a literal as it appears in source. -/
def quoteStr (t : Str) : Str := '"' :: (t ++ ['"'])

/-- Wrapped call produced by generate_replacement for a literal. -/
def nsWrap (t : Str) : Str :=
  S "NSLocalizedString(" ++ quoteStr t ++ S ", comment: " ++ quoteStr t ++ [')']

/-- Source form of a Text call on the literal. -/
def textCall (t : Str) : Str := S "Text(" ++ quoteStr t ++ [')']

/-- Wrapped form of a Text call on the literal. -/
def textCallWrapped (t : Str) : Str := S "Text(" ++ nsWrap t ++ [')']

/-- Source form of a Button call opening on the literal. -/
def buttonCall (t : Str) : Str := S "Button(" ++ quoteStr t

/-- Wrapped form of a Button call opening on the literal. -/
def buttonCallWrapped (t : Str) : Str := S "Button(" ++ nsWrap t

/-- Embedding of PreciseLocalizer.generate_replacement: prefer the Text form,
then the Button form, else wrap the bare quoted literal; each branch uses
Python str.replace, which replaces every occurrence. -/
def generate_replacement (line text : Str) : Str :=
  if containsSub line (textCall text) then
    replaceAll line (textCall text) (textCallWrapped text)
  else if containsSub line (buttonCall text) then
    replaceAll line (buttonCall text) (buttonCallWrapped text)
  else replaceAll line (quoteStr text) (nsWrap text)

/-- One replacement-plan record of create_replacement_plan. -/
structure PlanEntry where
  line_number : Nat
  original : Str
  replacement : Str
  text : Str
  chinese_translation : Str
deriving DecidableEq

/-- Embedding of the per-file body of PreciseLocalizer.create_replacement_plan:
one plan entry per finding, whose replacement is computed independently from
the finding's own copy of the original line. -/
def create_replacement_plan (store : List (Str × Str))
    (findings : List (Nat × Str × Str)) : List PlanEntry :=
  findings.map (fun f =>
    { line_number := f.1
      original := f.2.1
      replacement := generate_replacement f.2.1 f.2.2
      text := f.2.2
      chinese_translation := (lookupStore store f.2.2).getD (S "未找到翻译") })

/-- Stable insertion step for sorting plan entries by descending line number. -/
def insertPlanDesc (x : PlanEntry) : List PlanEntry → List PlanEntry
  | [] => [x]
  | y :: ys => if x.line_number ≥ y.line_number then x :: y :: ys
               else y :: insertPlanDesc x ys

/-- Python sorted with reverse true on the line-number key: stable descending. -/
def sortPlanDesc : List PlanEntry → List PlanEntry
  | [] => []
  | x :: xs => insertPlanDesc x (sortPlanDesc xs)

/-- Embedding of the per-file write loop of PreciseLocalizer.apply_replacements:
entries sorted by descending line number each overwrite the whole indexed line
with their replacement plus a newline. -/
def apply_replacements (lines : List Str) (file_plan : List PlanEntry) : List Str :=
  (sortPlanDesc file_plan).foldl (fun ls e =>
    let idx := e.line_number - 1
    if idx < ls.length then ls.set idx (e.replacement ++ ['\n']) else ls) lines

/- Embedding of smart_localize.py. -/

/-- Configuration of SmartLocalizer with the configured regular expressions
left abstract: one Boolean matcher per exclude_string_patterns entry applied
to the literal, and one per exclude_contexts entry applied to the context. -/
structure SmartConfig where
  excludeStringPatterns : List (Str → Bool)
  excludeContexts : List (Str → Bool)

/-- Test of the pure digits, whitespace and punctuation regex of
is_localizable_string: a nonempty string all of whose characters are digits,
whitespace, or one of the listed punctuation marks. -/
def digitsPunctOnly (s : Str) : Bool :=
  !s.isEmpty && s.all (fun c =>
    c.isDigit || pyIsSpace c || ['-', '_', '.', ',', ':', ';', '!', '?'].contains c)

/-- Embedding of SmartLocalizer.is_localizable_string with its checks in
source order: configured string excludes, configured context excludes, the
minimum length three, the ASCII letter requirement, the digits-and-punctuation
exclusion, and the already-localized context exclusion. -/
def is_localizable_string (cfg : SmartConfig) (string context : Str) : Bool :=
  if cfg.excludeStringPatterns.any (fun p => p string) then false
  else if cfg.excludeContexts.any (fun p => p context) then false
  else if string.length < 3 then false
  else if !(string.any isAsciiLetter) then false
  else if digitsPunctOnly string then false
  else if containsSub context (S "NSLocalizedString") then false
  else true

/-- On-disk state of one source file together with its backup copy, when one
exists. -/
structure FileState where
  content : Str
  backup : Option Str
deriving DecidableEq

/-- Embedding of SmartLocalizer.localize_file around its write phase.
The function first copies the file to a backup, then, when the new content
differs, rewrites the file in place with open in write mode; CPython truncates
the file at open and then emits the content, so a failure during the write,
modelled by fault carrying the number of characters already flushed, leaves
exactly that prefix of the new content on disk.  When nothing changed the
just-created backup is deleted. -/
def localize_file (original newContent : Str) (fault : Option Nat) : FileState :=
  let bk : Option Str := some original
  if newContent ≠ original then
    match fault with
    | none => { content := newContent, backup := bk }
    | some k => { content := newContent.take k, backup := bk }
  else
    { content := original, backup := none }

/-- Embedding of SmartLocalizer.rollback for one file: move the backup copy
back over the file; with no backup nothing happens. -/
def rollback_file (st : FileState) : FileState :=
  match st.backup with
  | some b => { content := b, backup := none }
  | none => st

/- Embedding of master_localizer.py. -/

/-- Parser for one stripped line against the record regex of
extract_keys_from_master: an opening quote, a nonempty quote-free key, a
closing quote, optional whitespace, an equals sign, optional whitespace, a
quoted possibly-empty value, an optional semicolon, optional trailing
whitespace, end of line. -/
def parseRecordLine (l : Str) : Option (Str × Str) :=
  match l with
  | '"' :: r0 =>
    let key := r0.takeWhile (fun c => c != '"')
    let r1 := r0.dropWhile (fun c => c != '"')
    if key.isEmpty then none else
    match r1 with
    | '"' :: r2 =>
      match r2.dropWhile pyIsSpace with
      | '=' :: r4 =>
        match r4.dropWhile pyIsSpace with
        | '"' :: r6 =>
          let v := r6.takeWhile (fun c => c != '"')
          let r7 := r6.dropWhile (fun c => c != '"')
          match r7 with
          | '"' :: r8 =>
            let r9 := match r8 with | ';' :: t => t | _ => r8
            if (r9.dropWhile pyIsSpace).isEmpty then some (key, v) else none
          | _ => none
        | _ => none
      | _ => none
    | _ => none
  | _ => none

/-- One fold step of extract_keys_from_master over a raw line: strip it, skip
blank lines and comment lines, and store a parsed record in the dict. -/
def extractStep (acc : List (Str × Str)) (line : Str) : List (Str × Str) :=
  if !(strip line).isEmpty && !((S "/*").isPrefixOf (strip line)) &&
      !((S "//").isPrefixOf (strip line)) then
    match parseRecordLine (strip line) with
    | some kv => dictInsert acc kv.1 kv.2
    | none => acc
  else acc

/-- Fold of extractStep over a list of raw lines. -/
def extractLines (ls : List Str) : List (Str × Str) := ls.foldl extractStep []

/-- Embedding of MasterLocalizer.extract_keys_from_master: split the file text
on newlines and collect the key-value records into a dict. -/
def extract_keys_from_master (content : Str) : List (Str × Str) :=
  extractLines (splitNl content)

/-- Record line written for a key and value, as the format string of
generate_english_from_keys and update_strings_file produces it. -/
def recordLine (k v : Str) : Str :=
  '"' :: (k ++ ('"' :: ' ' :: '=' :: ' ' :: '"' :: (v ++ ['"', ';'])))

/-- Category names of generate_english_from_keys in their dict insertion
order. -/
def catNames : List Str :=
  [S "主界面导航", S "MenuBarView", S "权限页面", S "设置相关", S "录音相关",
   S "转录相关", S "模型相关", S "按钮和操作", S "错误和状态消息", S "语言相关", S "其他"]

/-- Keys routed to the main-navigation category. -/
def navKeys : List Str :=
  [S "Dashboard", S "Transcribe Audio", S "History", S "AI Models", S "Enhancement",
   S "Power Mode", S "Permissions", S "Audio Input", S "Dictionary", S "Settings",
   S "VoiceInk Pro"]

/-- Keys routed to the buttons-and-actions category. -/
def actionKeys : List Str :=
  [S "Save", S "Cancel", S "Delete", S "Edit", S "Close", S "Open", S "Copy", S "Paste"]

/-- Keys routed to the language category. -/
def langKeys : List Str :=
  [S "English", S "Chinese", S "Spanish", S "French", S "German", S "Japanese"]

/-- Category assignment of generate_english_from_keys, an if-elif chain over
the key. -/
def catOf (key : Str) : Str :=
  if navKeys.contains key then S "主界面导航"
  else if containsSub key (S "Recording") || containsSub key (S "Record") then S "录音相关"
  else if containsSub key (S "Transcription") || containsSub key (S "Transcribe") then S "转录相关"
  else if actionKeys.contains key then S "按钮和操作"
  else if containsSub key (S "Error") || containsSub key (S "Warning") || containsSub key (S "failed") then S "错误和状态消息"
  else if langKeys.contains key then S "语言相关"
  else S "其他"

/-- Items of one category: appending each sorted item to its category list in
iteration order equals a stable filter of the sorted items. -/
def itemsFor (m : List (Str × Str)) (c : Str) : List (Str × Str) :=
  (sortPairs m).filter (fun kv => catOf kv.1 == c)

/-- Lines emitted for one category: nothing when it is empty, else a comment
header, one record per item with the value equal to the key, and a blank line. -/
def blockFor (m : List (Str × Str)) (c : Str) : List Str :=
  if (itemsFor m c).isEmpty then []
  else (S "/* " ++ c ++ S " */") :: ((itemsFor m c).map (fun kv => recordLine kv.1 kv.1) ++ [[]])

/-- All lines emitted by generate_english_from_keys: a file header comment, a
blank line, then the category blocks in dict insertion order. -/
def generateLines (m : List (Str × Str)) : List Str :=
  S "/* VoiceInk English Localization - Auto-generated from Chinese master file */"
    :: [] :: (catNames.map (blockFor m)).flatten

/-- Embedding of MasterLocalizer.generate_english_from_keys: the emitted lines
joined by newlines. -/
def generate_english_from_keys (m : List (Str × Str)) : Str :=
  joinNl (generateLines m)

/-- The items of all categories in emission order. -/
def orderedItems (m : List (Str × Str)) : List (Str × Str) :=
  (catNames.map (itemsFor m)).flatten

/-- Wellformedness of one key of a resource store: nonempty, quote-free and
newline-free, exactly what the record grammar itself guarantees. -/
abbrev wfKey (k : Str) : Prop := k ≠ [] ∧ '"' ∉ k ∧ '\n' ∉ k

/-- Wellformedness of a parsed store: wellformed keys without duplicates. -/
abbrev wfStore (m : List (Str × Str)) : Prop :=
  (∀ kv ∈ m, wfKey kv.1) ∧ (m.map Prod.fst).Nodup

/- Embedding of sync_strings.py.  The script consistently doubles its
backslashes: its string literals denote a literal backslash followed by the
letter n where a newline was intended, and its regexes require literal
backslashes where whitespace classes were intended. -/

/-- The two-character sequence backslash n that the double-escaped literals of
sync_strings.py actually denote. -/
def bsn : Str := ['\\', 'n']

/-- Parser for one stripped chunk against the double-escaped record regex of
extract_existing_keys: after the quoted key the pattern demands a literal
backslash, any number of letters s, an equals sign, again a literal backslash
and letters s, the quoted value, an optional semicolon, and a final literal
backslash with letters s before the end. -/
def parseRecordLineBuggy (l : Str) : Option (Str × Str) :=
  match l with
  | '"' :: r0 =>
    let key := r0.takeWhile (fun c => c != '"')
    let r1 := r0.dropWhile (fun c => c != '"')
    if key.isEmpty then none else
    match r1 with
    | '"' :: r2 =>
      match r2 with
      | '\\' :: r3 =>
        match r3.dropWhile (fun c => c == 's') with
        | '=' :: r4 =>
          match r4 with
          | '\\' :: r5 =>
            match r5.dropWhile (fun c => c == 's') with
            | '"' :: r6 =>
              let v := r6.takeWhile (fun c => c != '"')
              let r7 := r6.dropWhile (fun c => c != '"')
              match r7 with
              | '"' :: r8 =>
                let r9 := match r8 with | ';' :: t => t | _ => r8
                match r9 with
                | '\\' :: r10 =>
                  if (r10.dropWhile (fun c => c == 's')).isEmpty then some (key, v) else none
                | _ => none
              | _ => none
            | _ => none
          | _ => none
        | _ => none
      | _ => none
    | _ => none
  | _ => none

/-- Embedding of StringsSyncer.extract_existing_keys: split the file content
on the two-character backslash-n sequence, strip each chunk, and collect the
records its double-escaped regex accepts. -/
def extract_existing_keys (content : Str) : List (Str × Str) :=
  (splitOnSeq content bsn).foldl (fun acc chunk =>
    match parseRecordLineBuggy (strip chunk) with
    | some kv => dictInsert acc kv.1 kv.2
    | none => acc) []

/-- The translation lookup table of generate_chinese_translation, verbatim. -/
def basic_translations : List (Str × Str) :=
  [(S "Save", S "保存"), (S "Cancel", S "取消"), (S "Delete", S "删除"),
   (S "Edit", S "编辑"), (S "Add", S "添加"), (S "Done", S "完成"),
   (S "Close", S "关闭"), (S "Back", S "返回"), (S "Next", S "下一步"),
   (S "Continue", S "继续"), (S "Copy", S "复制"), (S "Paste", S "粘贴"),
   (S "Settings", S "设置"), (S "Active", S "激活"), (S "Inactive", S "未激活"),
   (S "Loading", S "加载中"), (S "Processing", S "处理中"), (S "Ready", S "就绪"),
   (S "Unknown", S "未知"), (S "None", S "无"), (S "VoiceInk Pro", S "VoiceInk Pro"),
   (S "Transcription", S "转录"), (S "Recording", S "录音"), (S "Enhancement", S "增强"),
   (S "AI Models", S "AI 模型"), (S "Power Mode", S "专业模式"), (S "Dictionary", S "词典"),
   (S "History", S "历史记录"), (S "Audio Input", S "音频输入"), (S "Permissions", S "权限"),
   (S "Start Recording", S "开始录音"), (S "Stop Recording", S "停止录音"),
   (S "Start Transcription", S "开始转录"), (S "Toggle Mini Recorder", S "切换迷你录音器"),
   (S "Configure Shortcut", S "配置快捷键"), (S "Manage Models", S "管理模型"),
   (S "Manage AI Providers", S "管理AI提供商"), (S "App Permissions", S "应用权限"),
   (S "Keyboard Shortcut", S "键盘快捷键"), (S "Accessibility Access", S "辅助功能访问"),
   (S "Microphone Access", S "麦克风访问"), (S "Screen Recording Access", S "屏幕录制访问")]

/-- Embedding of StringsSyncer.generate_chinese_translation: the table value
when the key is known, else the needs-translation marker around the key. -/
def generate_chinese_translation (english_key : Str) : Str :=
  match lookupStore basic_translations english_key with
  | some v => v
  | none => S "[需要翻译] " ++ english_key

/-- New record lines built by the loop of update_strings_file: the sorted new
keys not already present, each rendered as a record whose value is the key
itself for the English file and the generated Chinese translation otherwise. -/
def new_entries (existing : List (Str × Str)) (new_keys : List Str)
    (is_chinese : Bool) : List Str :=
  (sortStr new_keys).filterMap (fun k =>
    if containsKey existing k then none
    else some (recordLine k (if is_chinese then generate_chinese_translation k else k)))

/-- Embedding of StringsSyncer.update_strings_file: append the new entries
under a dated section marker and report how many were added.  Every separator
the script writes is the two-character backslash-n sequence its double-escaped
literals denote, not a newline. -/
def update_strings_file (content : Str) (existing : List (Str × Str))
    (new_keys : List Str) (is_chinese : Bool) (date : Str) : Str × Nat :=
  let es := new_entries existing new_keys is_chinese
  if es.isEmpty then (content, 0)
  else
    let c1 := if !content.isEmpty && !(bsn.isSuffixOf content) then content ++ bsn else content
    (c1 ++ (bsn ++ S "/* 新增的本地化键 - " ++ date ++ S " */" ++ bsn)
        ++ List.intercalate bsn es ++ bsn, es.length)

/-- Result of re.findall with the used-key pattern of extract_used_keys on one
file.  The double-escaped pattern escapes its backslash, which turns the
following parenthesis into a group opener that is never closed; re.findall
therefore raises re.error for every file content, before any matching. -/
def findallUsedKeys (_content : Str) : Except Unit (List Str) :=
  Except.error ()

/-- Embedding of StringsSyncer.extract_used_keys: for every Swift file the
body calls re.findall inside a try block whose per-file except swallows the
re.error that findallUsedKeys raises, so no file ever contributes keys. -/
def extract_used_keys (files : List Str) : List Str :=
  files.foldl (fun acc content =>
    match findallUsedKeys content with
    | Except.ok ks => acc ++ ks
    | Except.error _ => acc) []

/-- Outcome of one StringsSyncer.sync run: both resulting store file contents
and the number of keys added to each. -/
structure SyncResult where
  en_content : Str
  zh_content : Str
  added_en : Nat
  added_zh : Nat
deriving DecidableEq

/-- Embedding of StringsSyncer.sync: collect the used keys, read both stores,
and form the new keys as the used keys absent from the English store; with no
new key, report zero additions and leave both files untouched, otherwise
append the new keys to both files with update_strings_file. -/
def sync (files : List Str) (en_content zh_content date : Str) : SyncResult :=
  if ((extract_used_keys files).filter
      (fun k => !(containsKey (extract_existing_keys en_content) k))).isEmpty then
    { en_content := en_content, zh_content := zh_content, added_en := 0, added_zh := 0 }
  else
    { en_content := (update_strings_file en_content (extract_existing_keys en_content)
        ((extract_used_keys files).filter
          (fun k => !(containsKey (extract_existing_keys en_content) k))) false date).1
      zh_content := (update_strings_file zh_content (extract_existing_keys zh_content)
        ((extract_used_keys files).filter
          (fun k => !(containsKey (extract_existing_keys en_content) k))) true date).1
      added_en := (update_strings_file en_content (extract_existing_keys en_content)
        ((extract_used_keys files).filter
          (fun k => !(containsKey (extract_existing_keys en_content) k))) false date).2
      added_zh := (update_strings_file zh_content (extract_existing_keys zh_content)
        ((extract_used_keys files).filter
          (fun k => !(containsKey (extract_existing_keys en_content) k))) true date).2 }

/- Concrete instances used by counterexamples and witnesses. -/

/-- Scanner configuration recognising one Button line, with no avoid patterns. -/
def cfgC1 : PreciseConfig :=
  { uiMatches := fun l => if l == S "Button(\"Save\")" then [S "Save"] else []
    avoidPatterns := []
    technicalIndicators := [] }

/-- Master store holding the key Save. -/
def storeC1 : List (Str × Str) := [(S "Save", S "保存")]

/-- Source line with a Button call on the literal Save. -/
def lineC1 : Str := S "Button(\"Save\")"

/-- Scanner configuration whose positive patterns capture the literal Save on
any line and whose single avoid pattern matches assignment lines. -/
def cfgC2 : PreciseConfig :=
  { uiMatches := fun _ => [S "Save"]
    avoidPatterns := [fun l => containsSub l (S "let ")]
    technicalIndicators := [] }

/-- Assignment line whose context matches both a positive and the avoid
pattern. -/
def lineC2 : Str := S "let key = \"Save\""

/-- Wellformed one-record resource-file text. -/
def textC3 : Str := S "\"Save\" = \"保存\";"

/-- Line holding the same quoted literal twice in non-Text, non-Button calls. -/
def lineC4 : Str := S "foo(\"Save\") + bar(\"Save\")"

/-- Quote-free fragments around two copies of a quoted literal. -/
def aC4 : Str := S "label: "

/-- Middle quote-free fragment for the replacement shape theorem. -/
def bC4 : Str := S " + "

/-- Trailing quote-free fragment for the replacement shape theorem. -/
def cC4 : Str := S " end"

/-- Literal wrapped twice on the witness line. -/
def tC4 : Str := S "Hi"

/-- Line with two accepted literals in two Text calls. -/
def lineC5 : Str := S "Text(\"Start\") ; Text(\"Stop\")"

/-- Store holding translations for both literals of lineC5. -/
def storeC5 : List (Str × Str) := [(S "Start", S "开始"), (S "Stop", S "停止")]

/-- Two findings on the same line of the same file. -/
def findingsC5 : List (Nat × Str × Str) :=
  [(1, lineC5, S "Start"), (1, lineC5, S "Stop")]

/-- Three-key wellformed master store for the scenario with n equal to 3. -/
def storeC8 : List (Str × Str) :=
  [(S "Save", S "保存"), (S "Hello", S "你好"), (S "Cancel", S "取消")]

/-- Smart-localizer configuration with no configured exclude patterns. -/
def cfgC10 : SmartConfig :=
  { excludeStringPatterns := [], excludeContexts := [] }

/-- Literal made only of CJK characters, without any ASCII letter. -/
def cjkC10 : Str := S "保存设置"

/-- Matching user-interface context for the CJK literal. -/
def ctxC10 : Str := S "Text(\"保存设置\")"

/- Helper lemmas about sorting. -/

/-- Inserting preserves the multiset of strings. -/
theorem insertStr_perm (x : Str) (l : List Str) : List.Perm (insertStr x l) (x :: l) := by
  induction l with
  | nil => exact List.Perm.refl _
  | cons y ys ih =>
    unfold insertStr
    split
    · exact List.Perm.refl _
    · exact (List.Perm.cons y ih).trans (List.Perm.swap x y ys)

/-- Python sorted is a permutation of its input list of strings. -/
theorem sortStr_perm (l : List Str) : List.Perm (sortStr l) l := by
  induction l with
  | nil => exact List.Perm.refl _
  | cons x xs ih => exact (insertStr_perm x (sortStr xs)).trans (List.Perm.cons x ih)

/-- Inserting preserves the multiset of key-value pairs. -/
theorem insertPair_perm (x : Str × Str) (l : List (Str × Str)) :
    List.Perm (insertPair x l) (x :: l) := by
  induction l with
  | nil => exact List.Perm.refl _
  | cons y ys ih =>
    unfold insertPair
    split
    · exact List.Perm.refl _
    · exact (List.Perm.cons y ih).trans (List.Perm.swap x y ys)

/-- Python sorted is a permutation of its input list of pairs. -/
theorem sortPairs_perm (l : List (Str × Str)) : List.Perm (sortPairs l) l := by
  induction l with
  | nil => exact List.Perm.refl _
  | cons x xs ih => exact (insertPair_perm x (sortPairs xs)).trans (List.Perm.cons x ih)

/- Claim C10. -/

/-- C10: a candidate literal without any ASCII letter is never classified as
localizable, whatever the configuration and the surrounding context. -/
theorem no_letter_never_localizable (cfg : SmartConfig) (s ctx : Str)
    (h : s.any isAsciiLetter = false) : is_localizable_string cfg s ctx = false := by
  unfold is_localizable_string
  rw [h]
  split
  · rfl
  split
  · rfl
  split
  · rfl
  rfl

/-- Witness: the all-CJK literal has no ASCII letter and is rejected even in a
matching Text context with an empty exclude configuration. -/
theorem no_letter_never_localizable_witness :
    cjkC10.any isAsciiLetter = false ∧
      is_localizable_string cfgC10 cjkC10 ctxC10 = false :=
  ⟨by decide, no_letter_never_localizable cfgC10 cjkC10 ctxC10 (by decide)⟩

/- Claim C2. -/

/-- C2: when the enclosing line matches at least one configured avoidance
pattern, no literal of that line becomes a finding, however many positive
patterns captured literals on it. -/
theorem avoid_match_rejects_line (cfg : PreciseConfig) (store : List (Str × Str))
    (n : Nat) (line : Str)
    (h : cfg.avoidPatterns.any (fun p => p line) = true) :
    find_ui_strings_line cfg store n line = [] := by
  unfold find_ui_strings_line
  split
  · rfl
  · rw [List.filterMap_eq_nil_iff]
    intro t _
    have hlogic : is_code_logic cfg line t = true := by
      unfold is_code_logic
      rw [h, Bool.true_or]
    rw [hlogic, Bool.or_true, if_pos rfl]

/-- Witness: an assignment line matching the avoid pattern yields no finding
although the positive patterns capture the literal Save on it. -/
theorem avoid_match_rejects_line_witness :
    cfgC2.avoidPatterns.any (fun p => p lineC2) = true ∧
      find_ui_strings_line cfgC2 storeC1 3 lineC2 = [] :=
  ⟨by decide, avoid_match_rejects_line cfgC2 storeC1 3 lineC2 (by decide)⟩

/- Claim C1. -/

/-- C1 counterexample: the literal Save is a key of the master store, and the
scanner still reports a finding for it, so presence in the store does not
exclude a literal. -/
theorem store_key_still_found :
    containsKey storeC1 (S "Save") = true ∧
      find_ui_strings_line cfgC1 storeC1 1 lineC1 = [(1, strip lineC1, S "Save")] := by
  decide

/-- C1 amended: a literal becomes a finding only when it already is a key of
the master store, so literals absent from the store never become findings. -/
theorem finding_key_in_store (cfg : PreciseConfig) (store : List (Str × Str))
    (n : Nat) (line : Str) (x : Nat × Str × Str)
    (hx : x ∈ find_ui_strings_line cfg store n line) :
    containsKey store x.2.2 = true := by
  unfold find_ui_strings_line at hx
  split at hx
  · simp at hx
  · rw [List.mem_filterMap] at hx
    obtain ⟨t, -, ht⟩ := hx
    split at ht
    · simp at ht
    split at ht
    · simp at ht
    split at ht
    case isTrue hk =>
      cases ht
      exact hk
    · simp at ht

/-- Witness: applying the amended statement to the concrete Button finding. -/
theorem finding_key_in_store_witness :
    (1, strip lineC1, S "Save") ∈ find_ui_strings_line cfgC1 storeC1 1 lineC1 ∧
      containsKey storeC1 ((1, strip lineC1, S "Save") : Nat × Str × Str).2.2 = true :=
  ⟨by decide, finding_key_in_store cfgC1 storeC1 1 lineC1 _ (by decide)⟩

/- Claim C5. -/

/-- C5 counterexample: with two accepted literals on one line, applying the
plan leaves the first literal as a raw Text call and discards its wrapped
form, so no single combined rewrite wrapping both literals is produced. -/
theorem same_line_rewrite_discards_first :
    containsSub ((apply_replacements [lineC5]
        (create_replacement_plan storeC5 findingsC5)).headD []) (S "Text(\"Start\")") = true ∧
      containsSub ((apply_replacements [lineC5]
        (create_replacement_plan storeC5 findingsC5)).headD [])
          (S "NSLocalizedString(\"Start\"") = false := by
  decide

/-- C5 amended: two findings on one line yield two independent whole-line plan
entries, each computed from its own copy of the original line, and applying
them in sequence leaves exactly the second finding's rewrite of the original
line, not a combined rewrite of both literals. -/
theorem same_line_second_entry_wins (store : List (Str × Str)) (L t1 t2 : Str) :
    apply_replacements [L] (create_replacement_plan store [(1, L, t1), (1, L, t2)]) =
      [generate_replacement L t2 ++ ['\n']] := by
  rfl

/- Claim C6. -/

/-- C6 counterexample: a write failing after zero characters leaves the target
file truncated rather than with its pre-edit content, because the file is
rewritten in place after open in write mode truncates it. -/
theorem failed_write_not_intact :
    (localize_file (S "a") (S "b") (some 0)).content ≠ S "a" := by
  decide

/-- C6 amended: when the write of a really-changed file fails after k
characters, the file holds exactly the first k characters of the new content,
while the backup still holds the pre-edit content, so rollback restores it. -/
theorem failed_write_leaves_prefix_and_backup (original newContent : Str) (k : Nat)
    (h : newContent ≠ original) :
    localize_file original newContent (some k) =
      { content := newContent.take k, backup := some original } ∧
      (rollback_file (localize_file original newContent (some k))).content = original := by
  unfold localize_file
  rw [if_pos h]
  exact ⟨rfl, rfl⟩

/-- Witness: the amended failure behaviour at a concrete one-character edit. -/
theorem failed_write_leaves_prefix_and_backup_witness :
    S "b" ≠ S "a" ∧
      (localize_file (S "a") (S "b") (some 0) =
          { content := (S "b").take 0, backup := some (S "a") } ∧
        (rollback_file (localize_file (S "a") (S "b") (some 0))).content = S "a") :=
  ⟨by decide, failed_write_leaves_prefix_and_backup (S "a") (S "b") 0 (by decide)⟩

/- Claim C7. -/

/-- Scanning any corpus yields no used keys: every per-file findall raises
re.error and the per-file except swallows it. -/
theorem extract_used_keys_empty (files : List Str) : extract_used_keys files = [] := by
  unfold extract_used_keys
  induction files with
  | nil => rfl
  | cons f fs ih => exact ih

/-- C7: running sync twice in a row with no source changes between the runs
adds zero keys in the second run to every locale store.  The property holds
degenerately: the used-key scan always returns the empty set, because its
double-escaped regex raises re.error on every file and the exception is
swallowed per file, so every run, the first included, adds zero keys and
leaves both store files untouched; the clause about keys added by the first
run is vacuous, the first run adding none. -/
theorem sync_second_run_adds_zero (files : List Str) (en zh d1 d2 : Str) :
    (sync files (sync files en zh d1).en_content
        (sync files en zh d1).zh_content d2).added_en = 0 ∧
    (sync files (sync files en zh d1).en_content
        (sync files en zh d1).zh_content d2).added_zh = 0 ∧
    (sync files en zh d1).added_en = 0 ∧ (sync files en zh d1).added_zh = 0 ∧
    (sync files en zh d1).en_content = en ∧ (sync files en zh d1).zh_content = zh := by
  have h : ∀ e z d, sync files e z d =
      { en_content := e, zh_content := z, added_en := 0, added_zh := 0 } := by
    intro e z d
    unfold sync
    rw [extract_used_keys_empty]
    simp
  simp [h]

/- Claim C9. -/

/-- C9: every record the sync appends to the Chinese store carries the
generated translation of its key as value, and that value is either the
lookup-table translation or the needs-translation marker around the key. -/
theorem chinese_value_lookup_or_marker (existing : List (Str × Str))
    (new_keys : List Str) (k : Str) (hk : k ∈ new_keys)
    (hnot : containsKey existing k = false) :
    recordLine k (generate_chinese_translation k) ∈ new_entries existing new_keys true ∧
      ((∃ v, (k, v) ∈ basic_translations ∧ generate_chinese_translation k = v) ∨
        (generate_chinese_translation k = S "[需要翻译] " ++ k ∧
          lookupStore basic_translations k = none)) := by
  constructor
  · unfold new_entries
    rw [List.mem_filterMap]
    refine ⟨k, (sortStr_perm new_keys).mem_iff.mpr hk, ?_⟩
    rw [hnot]
    simp
  · cases hfind : lookupStore basic_translations k with
    | none =>
      right
      refine ⟨?_, rfl⟩
      unfold generate_chinese_translation
      rw [hfind]
    | some v =>
      left
      refine ⟨v, ?_, ?_⟩
      · unfold lookupStore at hfind
        obtain ⟨p, hp, hpv⟩ := Option.map_eq_some'.mp hfind
        have hmem := List.mem_of_find?_eq_some hp
        have hkey : p.1 = k := by
          have := List.find?_some hp
          exact beq_iff_eq.mp this
        have : p = (k, v) := by
          cases p
          simp only at hkey hpv
          rw [hkey, hpv]
        rw [← this]
        exact hmem
      · unfold generate_chinese_translation
        rw [hfind]

/-- Witness: the table key Save produces its table translation and its record
is appended for a fresh store. -/
theorem chinese_value_lookup_or_marker_witness :
    S "Save" ∈ [S "Save"] ∧
      (recordLine (S "Save") (generate_chinese_translation (S "Save")) ∈
          new_entries [] [S "Save"] true ∧
        ((∃ v, (S "Save", v) ∈ basic_translations ∧
            generate_chinese_translation (S "Save") = v) ∨
          (generate_chinese_translation (S "Save") = S "[需要翻译] " ++ S "Save" ∧
            lookupStore basic_translations (S "Save") = none))) :=
  ⟨by decide, chinese_value_lookup_or_marker [] [S "Save"] (S "Save") (by decide) (by decide)⟩

/- Claim C4, counterexample. -/

/-- C4 counterexample: on a line holding the same quoted literal twice, the
generated replacement differs from the first-occurrence-only rewrite the
claim describes, because str.replace also rewrites the second copy. -/
theorem replacement_not_first_only :
    generate_replacement lineC4 (S "Save") ≠
      replace_first_spec lineC4 (quoteStr (S "Save")) (nsWrap (S "Save")) := by
  decide

/- Replacement lemmas for claim C4. -/

/-- Skipping exactly the length of a block continues the scan right after it. -/
theorem replaceAllAux_skip (pat rep xs rest : Str) :
    replaceAllAux pat rep xs.length (xs ++ rest) = replaceAllAux pat rep 0 rest := by
  induction xs with
  | nil => rfl
  | cons x xs ih => exact ih

/-- A pattern whose head character does not occur in a block finds no match
beginning inside that block. -/
theorem replaceAll_head_no_match (ch : Char) (p' a rest rep : Str) (ha : ch ∉ a) :
    replaceAll (a ++ rest) (ch :: p') rep = a ++ replaceAll rest (ch :: p') rep := by
  induction a with
  | nil => rfl
  | cons c a' ih =>
    have hcc : c ≠ ch := fun h => ha (by rw [h]; exact List.mem_cons_self _ _)
    have hc : (ch :: p').isPrefixOf (c :: (a' ++ rest)) = false := by
      simp only [List.isPrefixOf, Bool.and_eq_false_iff]
      left
      exact beq_false_of_ne (fun h => hcc h.symm)
    have ha' : ch ∉ a' := fun h => ha (List.mem_cons_of_mem _ h)
    show replaceAllAux (ch :: p') rep 0 (c :: (a' ++ rest)) = _
    rw [replaceAllAux]
    rw [if_neg (fun h => by rw [hc] at h; exact Bool.false_ne_true h.2)]
    rw [List.cons_append]
    exact congrArg (c :: ·) (ih ha')

/-- Head-character form of the no-match lemma for an opaque pattern. -/
theorem replaceAll_append_no_match (a rest pat rep : Str) (ch : Char)
    (hhead : pat.head? = some ch) (ha : ch ∉ a) :
    replaceAll (a ++ rest) pat rep = a ++ replaceAll rest pat rep := by
  cases pat with
  | nil => simp at hhead
  | cons p0 p'' =>
    have hp : p0 = ch := by simpa using hhead
    subst hp
    exact replaceAll_head_no_match p0 p'' a rest rep ha

/-- The scan matches the pattern at its own occurrence, emits the replacement
and resumes right after the matched characters. -/
theorem replaceAll_match_head (pat rest rep : Str) (hp : pat ≠ []) :
    replaceAll (pat ++ rest) pat rep = rep ++ replaceAll rest pat rep := by
  cases pat with
  | nil => exact absurd rfl hp
  | cons c p' =>
    have hpre : (c :: p').isPrefixOf ((c :: p') ++ rest) = true :=
      List.isPrefixOf_iff_prefix.mpr (List.prefix_append _ _)
    show replaceAllAux (c :: p') rep 0 (c :: (p' ++ rest)) = _
    rw [replaceAllAux]
    rw [if_pos ⟨List.cons_ne_nil _ _, hpre⟩]
    have hlen : (c :: p').length - 1 = p'.length := by simp
    rw [hlen, replaceAllAux_skip]
    rfl

/-- A block avoiding the pattern's head character is returned unchanged. -/
theorem replaceAll_self_of_not_mem (l pat rep : Str) (ch : Char)
    (hhead : pat.head? = some ch) (h : ch ∉ l) : replaceAll l pat rep = l := by
  have h2 := replaceAll_append_no_match l [] pat rep ch hhead h
  rw [List.append_nil] at h2
  rw [h2, show replaceAll [] pat rep = [] from rfl, List.append_nil]

/-- An explicitly present nonempty substring is found by the substring test. -/
theorem containsSub_append_self (x s y : Str) (hs : s ≠ []) :
    containsSub (x ++ (s ++ y)) s = true := by
  induction x with
  | nil =>
    rw [List.nil_append]
    cases s with
    | nil => exact absurd rfl hs
    | cons c p =>
      have hpre : (c :: p).isPrefixOf ((c :: p) ++ y) = true :=
        List.isPrefixOf_iff_prefix.mpr (List.prefix_append _ _)
      show containsSub (c :: (p ++ y)) (c :: p) = true
      rw [containsSub]
      rw [show (c :: p).isPrefixOf (c :: (p ++ y)) = true from hpre, Bool.true_or]
  | cons x0 xs ih =>
    rw [List.cons_append, containsSub, ih, Bool.or_true]

/-- A substring whose head character never occurs in the line is not found. -/
theorem containsSub_eq_false_of_head_not_mem (L pat : Str) (ch : Char)
    (hhead : pat.head? = some ch) (h : ch ∉ L) : containsSub L pat = false := by
  cases pat with
  | nil => simp at hhead
  | cons p0 p' =>
    have hp : p0 = ch := by simpa using hhead
    subst hp
    induction L with
    | nil => rfl
    | cons c t ih =>
      have hcc : c ≠ p0 := fun he => h (by rw [he]; exact List.mem_cons_self _ _)
      have hpre : (p0 :: p').isPrefixOf (c :: t) = false := by
        simp only [List.isPrefixOf, Bool.and_eq_false_iff]
        left
        exact beq_false_of_ne (fun he => hcc he.symm)
      rw [containsSub, hpre, Bool.false_or]
      exact ih (fun hm => h (List.mem_cons_of_mem _ hm))

/-- A character differing from the quote and absent from the literal does not
occur in the quoted form of the literal. -/
theorem not_mem_quoteStr (ch : Char) (t : Str) (h1 : ch ≠ '"') (h2 : ch ∉ t) :
    ch ∉ quoteStr t := by
  unfold quoteStr
  intro hm
  rcases List.mem_cons.mp hm with he | hm
  · exact h1 he
  rcases List.mem_append.mp hm with hm | hm
  · exact h2 hm
  · exact h1 (List.mem_singleton.mp hm)

/-- C4 amended: generate_replacement selects one pattern per line, the Text
form when the line contains it, else the Button form when the line contains
it, else the bare quoted literal, and replaces EVERY occurrence of the
selected pattern with its wrapped form, not only the first; a later verbatim
repetition of the selected pattern on the line is wrapped as well, while a
bare repetition of the quoted literal outside the selected pattern, and every
part of the line avoiding the pattern, is left textually unchanged. -/
theorem replacement_wraps_every_occurrence :
    (∀ a b c t : Str, '"' ∉ a → '"' ∉ b → '"' ∉ c →
      containsSub (a ++ (quoteStr t ++ (b ++ (quoteStr t ++ c)))) (textCall t) = false →
      containsSub (a ++ (quoteStr t ++ (b ++ (quoteStr t ++ c)))) (buttonCall t) = false →
      generate_replacement (a ++ (quoteStr t ++ (b ++ (quoteStr t ++ c)))) t =
        a ++ (nsWrap t ++ (b ++ (nsWrap t ++ c)))) ∧
    (∀ a b₁ b₂ c t : Str, 'T' ∉ a → 'T' ∉ b₁ → 'T' ∉ b₂ → 'T' ∉ c → 'T' ∉ t →
      generate_replacement
          (a ++ (textCall t ++ (b₁ ++ (quoteStr t ++ (b₂ ++ (textCall t ++ c)))))) t =
        a ++ (textCallWrapped t ++ (b₁ ++ (quoteStr t ++ (b₂ ++ (textCallWrapped t ++ c)))))) ∧
    (∀ a b₁ b₂ c t : Str, 'B' ∉ a → 'B' ∉ b₁ → 'B' ∉ b₂ → 'B' ∉ c → 'B' ∉ t →
      'T' ∉ a → 'T' ∉ b₁ → 'T' ∉ b₂ → 'T' ∉ c → 'T' ∉ t →
      generate_replacement
          (a ++ (buttonCall t ++ (b₁ ++ (quoteStr t ++ (b₂ ++ (buttonCall t ++ c)))))) t =
        a ++ (buttonCallWrapped t ++ (b₁ ++ (quoteStr t ++ (b₂ ++ (buttonCallWrapped t ++ c)))))) := by
  refine ⟨?_, ?_, ?_⟩
  · intro a b c t ha hb hc hText hButton
    unfold generate_replacement
    rw [if_neg (fun h => by rw [hText] at h; exact Bool.false_ne_true h)]
    rw [if_neg (fun h => by rw [hButton] at h; exact Bool.false_ne_true h)]
    rw [replaceAll_append_no_match a _ (quoteStr t) _ '"' rfl ha]
    rw [replaceAll_match_head (quoteStr t) _ _ (List.cons_ne_nil _ _)]
    rw [replaceAll_append_no_match b _ (quoteStr t) _ '"' rfl hb]
    rw [replaceAll_match_head (quoteStr t) _ _ (List.cons_ne_nil _ _)]
    rw [replaceAll_self_of_not_mem c (quoteStr t) _ '"' rfl hc]
  · intro a b₁ b₂ c t hTa hTb₁ hTb₂ hTc hTt
    have hTq : 'T' ∉ quoteStr t := not_mem_quoteStr 'T' t (by decide) hTt
    have hTne : textCall t ≠ [] := by
      intro he
      have h0 : (textCall t).head? = some 'T' := rfl
      rw [he] at h0
      exact Option.noConfusion h0
    have hdisp : containsSub
        (a ++ (textCall t ++ (b₁ ++ (quoteStr t ++ (b₂ ++ (textCall t ++ c))))))
          (textCall t) = true :=
      containsSub_append_self a (textCall t) _ hTne
    unfold generate_replacement
    rw [if_pos hdisp]
    rw [replaceAll_append_no_match a _ (textCall t) _ 'T' rfl hTa]
    rw [replaceAll_match_head (textCall t) _ _ hTne]
    rw [replaceAll_append_no_match b₁ _ (textCall t) _ 'T' rfl hTb₁]
    rw [replaceAll_append_no_match (quoteStr t) _ (textCall t) _ 'T' rfl hTq]
    rw [replaceAll_append_no_match b₂ _ (textCall t) _ 'T' rfl hTb₂]
    rw [replaceAll_match_head (textCall t) _ _ hTne]
    rw [replaceAll_self_of_not_mem c (textCall t) _ 'T' rfl hTc]
  · intro a b₁ b₂ c t hBa hBb₁ hBb₂ hBc hBt hTa hTb₁ hTb₂ hTc hTt
    have hTq : 'T' ∉ quoteStr t := not_mem_quoteStr 'T' t (by decide) hTt
    have hBq : 'B' ∉ quoteStr t := not_mem_quoteStr 'B' t (by decide) hBt
    have hTbc : 'T' ∉ buttonCall t := by
      unfold buttonCall
      intro hm
      rcases List.mem_append.mp hm with hm | hm
      · exact absurd hm (by decide)
      · exact hTq hm
    have hTL : 'T' ∉
        (a ++ (buttonCall t ++ (b₁ ++ (quoteStr t ++ (b₂ ++ (buttonCall t ++ c)))))) := by
      intro hm
      rcases List.mem_append.mp hm with hm | hm
      · exact hTa hm
      rcases List.mem_append.mp hm with hm | hm
      · exact hTbc hm
      rcases List.mem_append.mp hm with hm | hm
      · exact hTb₁ hm
      rcases List.mem_append.mp hm with hm | hm
      · exact hTq hm
      rcases List.mem_append.mp hm with hm | hm
      · exact hTb₂ hm
      rcases List.mem_append.mp hm with hm | hm
      · exact hTbc hm
      · exact hTc hm
    have hdispT : containsSub
        (a ++ (buttonCall t ++ (b₁ ++ (quoteStr t ++ (b₂ ++ (buttonCall t ++ c))))))
          (textCall t) = false :=
      containsSub_eq_false_of_head_not_mem _ (textCall t) 'T' rfl hTL
    have hBne : buttonCall t ≠ [] := by
      intro he
      have h0 : (buttonCall t).head? = some 'B' := rfl
      rw [he] at h0
      exact Option.noConfusion h0
    have hdispB : containsSub
        (a ++ (buttonCall t ++ (b₁ ++ (quoteStr t ++ (b₂ ++ (buttonCall t ++ c))))))
          (buttonCall t) = true :=
      containsSub_append_self a (buttonCall t) _ hBne
    unfold generate_replacement
    rw [if_neg (fun h => by rw [hdispT] at h; exact Bool.false_ne_true h)]
    rw [if_pos hdispB]
    rw [replaceAll_append_no_match a _ (buttonCall t) _ 'B' rfl hBa]
    rw [replaceAll_match_head (buttonCall t) _ _ hBne]
    rw [replaceAll_append_no_match b₁ _ (buttonCall t) _ 'B' rfl hBb₁]
    rw [replaceAll_append_no_match (quoteStr t) _ (buttonCall t) _ 'B' rfl hBq]
    rw [replaceAll_append_no_match b₂ _ (buttonCall t) _ 'B' rfl hBb₂]
    rw [replaceAll_match_head (buttonCall t) _ _ hBne]
    rw [replaceAll_self_of_not_mem c (buttonCall t) _ 'B' rfl hBc]

/-- Witness: every branch exercised at concrete fragments: both bare copies
wrapped in the bare branch, both Text and both Button occurrences wrapped in
their branches with the intervening bare quoted literal left raw. -/
theorem replacement_wraps_every_occurrence_witness :
    '"' ∉ aC4 ∧ 'T' ∉ aC4 ∧ 'B' ∉ aC4 ∧
    generate_replacement (aC4 ++ (quoteStr tC4 ++ (bC4 ++ (quoteStr tC4 ++ cC4)))) tC4 =
        aC4 ++ (nsWrap tC4 ++ (bC4 ++ (nsWrap tC4 ++ cC4))) ∧
    generate_replacement
        (aC4 ++ (textCall tC4 ++ (bC4 ++ (quoteStr tC4 ++ (bC4 ++ (textCall tC4 ++ cC4)))))) tC4 =
        aC4 ++ (textCallWrapped tC4 ++
          (bC4 ++ (quoteStr tC4 ++ (bC4 ++ (textCallWrapped tC4 ++ cC4))))) ∧
    generate_replacement
        (aC4 ++ (buttonCall tC4 ++ (bC4 ++ (quoteStr tC4 ++ (bC4 ++ (buttonCall tC4 ++ cC4)))))) tC4 =
        aC4 ++ (buttonCallWrapped tC4 ++
          (bC4 ++ (quoteStr tC4 ++ (bC4 ++ (buttonCallWrapped tC4 ++ cC4))))) :=
  ⟨by decide, by decide, by decide,
    replacement_wraps_every_occurrence.1 aC4 bC4 cC4 tC4 (by decide) (by decide) (by decide)
      (by decide) (by decide),
    replacement_wraps_every_occurrence.2.1 aC4 bC4 bC4 cC4 tC4 (by decide) (by decide)
      (by decide) (by decide) (by decide),
    replacement_wraps_every_occurrence.2.2 aC4 bC4 bC4 cC4 tC4 (by decide) (by decide)
      (by decide) (by decide) (by decide) (by decide) (by decide) (by decide) (by decide)
      (by decide)⟩

/- Round-trip machinery for claims C3 and C8. -/

/-- Splitting on newlines never yields an empty chunk list. -/
theorem splitNl_ne_nil (l : Str) : splitNl l ≠ [] := by
  match l with
  | [] => simp [splitNl]
  | c :: t =>
    rw [splitNl]
    split
    · simp
    · cases h : splitNl t with
      | nil => simp
      | cons a r => simp

/-- A newline-free string is its own single chunk. -/
theorem splitNl_no_newline (x : Str) (hx : '\n' ∉ x) : splitNl x = [x] := by
  induction x with
  | nil => rfl
  | cons c t ih =>
    have hc : c ≠ '\n' := fun h => hx (by rw [h]; exact List.mem_cons_self _ _)
    have ht : '\n' ∉ t := fun h => hx (List.mem_cons_of_mem _ h)
    rw [splitNl, if_neg hc, ih ht]

/-- Splitting after a leading newline-free chunk peels that chunk off. -/
theorem splitNl_append_newline (x rest : Str) (hx : '\n' ∉ x) :
    splitNl (x ++ '\n' :: rest) = x :: splitNl rest := by
  induction x with
  | nil => rw [List.nil_append, splitNl, if_pos rfl]
  | cons c t ih =>
    have hc : c ≠ '\n' := fun h => hx (by rw [h]; exact List.mem_cons_self _ _)
    have ht : '\n' ∉ t := fun h => hx (List.mem_cons_of_mem _ h)
    rw [List.cons_append, splitNl, if_neg hc, ih ht]

/-- Splitting a newline join of newline-free lines recovers the lines. -/
theorem splitNl_joinNl (ls : List Str) (hne : ls ≠ []) (h : ∀ x ∈ ls, '\n' ∉ x) :
    splitNl (joinNl ls) = ls := by
  induction ls with
  | nil => exact absurd rfl hne
  | cons x ls' ih =>
    cases ls' with
    | nil => exact splitNl_no_newline x (h x (List.mem_cons_self _ _))
    | cons y ys =>
      rw [joinNl, splitNl_append_newline x _ (h x (List.mem_cons_self _ _)),
        ih (by simp) (fun z hz => h z (List.mem_cons_of_mem _ hz))]

/-- Scanning characters satisfying the predicate up to a failing one splits
the list there. -/
theorem takeWhile_append_stop (p : Char → Bool) (xs : Str) (y : Char) (ys : Str)
    (hxs : ∀ x ∈ xs, p x = true) (hy : p y = false) :
    (xs ++ y :: ys).takeWhile p = xs ∧ (xs ++ y :: ys).dropWhile p = y :: ys := by
  induction xs with
  | nil => simp [List.takeWhile_cons, List.dropWhile_cons, hy]
  | cons x xs ih =>
    have hx := hxs x (List.mem_cons_self _ _)
    have ihh := ih (fun z hz => hxs z (List.mem_cons_of_mem _ hz))
    simp [List.takeWhile_cons, List.dropWhile_cons, hx, ihh.1, ihh.2]

/-- Trailing-whitespace removal keeps a list ending in a non-space character. -/
theorem stripR_append_nonspace (l : Str) (a : Char) (h : pyIsSpace a = false) :
    stripR (l ++ [a]) = l ++ [a] := by
  induction l with
  | nil => simp [stripR, h]
  | cons c l' ih => simp [stripR, ih, List.isEmpty_iff]

/-- A generated record line is already stripped. -/
theorem strip_recordLine (k v : Str) : strip (recordLine k v) = recordLine k v := by
  have hshape : recordLine k v =
      ('"' :: (k ++ ('"' :: ' ' :: '=' :: ' ' :: '"' :: (v ++ ['"'])))) ++ [';'] := by
    simp [recordLine, List.append_assoc]
  rw [hshape]
  unfold strip
  rw [stripR_append_nonspace _ _ (by rfl)]
  unfold stripL
  rw [List.cons_append, List.dropWhile_cons]
  have hns : pyIsSpace '"' = false := rfl
  rw [hns]
  simp

/-- The parser accepts every generated record line of a nonempty quote-free
key and quote-free value, returning exactly that pair. -/
theorem parseRecordLine_record (k v : Str) (hk : k ≠ []) (hkq : '"' ∉ k)
    (hvq : '"' ∉ v) : parseRecordLine (recordLine k v) = some (k, v) := by
  have hkp : ∀ x ∈ k, (x != '"') = true := by
    intro x hx
    rw [bne_iff_ne]
    exact fun h => hkq (h ▸ hx)
  have hvp : ∀ x ∈ v, (x != '"') = true := by
    intro x hx
    rw [bne_iff_ne]
    exact fun h => hvq (h ▸ hx)
  have hq : (('"' : Char) != '"') = false := rfl
  obtain ⟨htk, hdk⟩ := takeWhile_append_stop (fun c => c != '"') k '"'
    (' ' :: '=' :: ' ' :: '"' :: (v ++ ['"', ';'])) hkp hq
  obtain ⟨htv, hdv⟩ := takeWhile_append_stop (fun c => c != '"') v '"' [';'] hvp hq
  have hke : k.isEmpty = false := by
    cases k with
    | nil => exact absurd rfl hk
    | cons a l => rfl
  have hsp : pyIsSpace ' ' = true := rfl
  have heq : pyIsSpace '=' = false := rfl
  have hqs : pyIsSpace '"' = false := rfl
  unfold parseRecordLine recordLine
  simp only [htk, hdk, hke, Bool.false_eq_true, if_false, List.dropWhile_cons,
    hsp, heq, hqs, if_true, if_false, htv, hdv]
  rfl

/-- A blank raw line leaves the accumulated store unchanged. -/
theorem extractStep_blank (acc : List (Str × Str)) : extractStep acc [] = acc := rfl

/-- A category header comment line leaves the accumulated store unchanged. -/
theorem extractStep_catHeader (c : Str) (acc : List (Str × Str)) :
    extractStep acc (S "/* " ++ c ++ S " */") = acc := by
  have h1 : S "/* " = ['/', '*', ' '] := rfl
  have h2 : S " */" = [' ', '*', '/'] := rfl
  have hshape : S "/* " ++ c ++ S " */" =
      ('/' :: '*' :: ' ' :: (c ++ [' ', '*'])) ++ ['/'] := by
    rw [h1, h2]
    simp [List.append_assoc]
  have hstrip : strip (('/' :: '*' :: ' ' :: (c ++ [' ', '*'])) ++ ['/']) =
      ('/' :: '*' :: ' ' :: (c ++ [' ', '*'])) ++ ['/'] := by
    unfold strip
    rw [stripR_append_nonspace _ _ (by rfl)]
    unfold stripL
    rw [List.cons_append, List.dropWhile_cons]
    have hns : pyIsSpace '/' = false := rfl
    rw [hns]
    simp
  unfold extractStep
  rw [hshape, hstrip]
  have hpre : (S "/*").isPrefixOf (('/' :: '*' :: ' ' :: (c ++ [' ', '*'])) ++ ['/']) = true := rfl
  rw [hpre]
  simp

/-- A generated record line extends the accumulated store by dict insertion. -/
theorem extractStep_record (acc : List (Str × Str)) (k v : Str)
    (hk : k ≠ []) (hkq : '"' ∉ k) (hvq : '"' ∉ v) :
    extractStep acc (recordLine k v) = dictInsert acc k v := by
  unfold extractStep
  rw [strip_recordLine]
  have h1 : (recordLine k v).isEmpty = false := rfl
  have h2 : (S "/*").isPrefixOf (recordLine k v) = false := rfl
  have h3 : (S "//").isPrefixOf (recordLine k v) = false := rfl
  rw [h1, h2, h3, parseRecordLine_record k v hk hkq hvq]
  rfl

/-- Key membership through the Boolean dict membership test. -/
theorem containsKey_iff (d : List (Str × Str)) (k : Str) :
    containsKey d k = true ↔ k ∈ d.map Prod.fst := by
  unfold containsKey
  rw [List.any_eq_true]
  constructor
  · rintro ⟨p, hp, hpk⟩
    exact List.mem_map.mpr ⟨p, hp, beq_iff_eq.mp hpk⟩
  · intro h
    obtain ⟨p, hp, hpk⟩ := List.mem_map.mp h
    exact ⟨p, hp, beq_iff_eq.mpr hpk⟩

/-- Folding the parser over pass-through record lines of fresh distinct keys
appends exactly the corresponding pass-through pairs. -/
theorem foldl_extractStep_records (items acc : List (Str × Str))
    (hwf : ∀ kv ∈ items, kv.1 ≠ [] ∧ '"' ∉ kv.1)
    (hdis : ∀ kv ∈ items, containsKey acc kv.1 = false)
    (hnd : (items.map Prod.fst).Nodup) :
    List.foldl extractStep acc (items.map (fun kv => recordLine kv.1 kv.1)) =
      acc ++ items.map (fun kv => (kv.1, kv.1)) := by
  induction items generalizing acc with
  | nil => simp
  | cons kv rest ih =>
    obtain ⟨hk, hkq⟩ := hwf kv (List.mem_cons_self _ _)
    have hck := hdis kv (List.mem_cons_self _ _)
    rw [List.map_cons] at hnd
    have hstep : extractStep acc (recordLine kv.1 kv.1) = acc ++ [(kv.1, kv.1)] := by
      rw [extractStep_record acc kv.1 kv.1 hk hkq hkq]
      unfold dictInsert
      rw [hck]
      simp
    have hdis' : ∀ z ∈ rest, containsKey (acc ++ [(kv.1, kv.1)]) z.1 = false := by
      intro z hz
      unfold containsKey
      rw [List.any_append]
      have h1 : containsKey acc z.1 = false := hdis z (List.mem_cons_of_mem _ hz)
      unfold containsKey at h1
      rw [h1]
      simp only [Bool.false_or, List.any_cons, List.any_nil, Bool.or_false]
      have hne : kv.1 ≠ z.1 := by
        intro he
        exact (List.nodup_cons.mp hnd).1 (he ▸ List.mem_map_of_mem Prod.fst hz)
      exact beq_false_of_ne hne
    rw [List.map_cons, List.foldl_cons, hstep]
    rw [ih (acc ++ [(kv.1, kv.1)]) (fun z hz => hwf z (List.mem_cons_of_mem _ hz))
      hdis' (List.nodup_cons.mp hnd).2]
    simp

/-- Folding the parser over one emitted category block appends exactly the
pass-through pairs of that category. -/
theorem foldl_extractStep_block (m : List (Str × Str)) (c : Str)
    (acc : List (Str × Str))
    (hwf : ∀ kv ∈ itemsFor m c, kv.1 ≠ [] ∧ '"' ∉ kv.1)
    (hdis : ∀ kv ∈ itemsFor m c, containsKey acc kv.1 = false)
    (hnd : ((itemsFor m c).map Prod.fst).Nodup) :
    List.foldl extractStep acc (blockFor m c) =
      acc ++ (itemsFor m c).map (fun kv => (kv.1, kv.1)) := by
  unfold blockFor
  split
  case isTrue h =>
    rw [List.isEmpty_iff.mp h]
    simp
  case isFalse h =>
    rw [List.foldl_cons, extractStep_catHeader]
    rw [List.foldl_append]
    rw [foldl_extractStep_records _ _ hwf hdis hnd]
    rfl

/-- Folding the parser over all emitted category blocks appends the
pass-through pairs of all categories in order. -/
theorem foldl_extractStep_blocks (m : List (Str × Str)) (cs : List Str)
    (acc : List (Str × Str))
    (hwf : ∀ c ∈ cs, ∀ kv ∈ itemsFor m c, kv.1 ≠ [] ∧ '"' ∉ kv.1)
    (hnd : (acc.map Prod.fst ++ ((cs.map (itemsFor m)).flatten).map Prod.fst).Nodup) :
    List.foldl extractStep acc ((cs.map (blockFor m)).flatten) =
      acc ++ ((cs.map (itemsFor m)).flatten).map (fun kv => (kv.1, kv.1)) := by
  induction cs generalizing acc with
  | nil => simp
  | cons c cs' ih =>
    rw [List.map_cons, List.flatten_cons, List.foldl_append]
    rw [List.map_cons, List.flatten_cons, List.map_append] at hnd
    have hnd2 : ((itemsFor m c).map Prod.fst ++
        ((cs'.map (itemsFor m)).flatten).map Prod.fst).Nodup := hnd.of_append_right
    have hndc : ((itemsFor m c).map Prod.fst).Nodup := hnd2.of_append_left
    have hdisj := List.disjoint_of_nodup_append hnd
    have hdisc : ∀ kv ∈ itemsFor m c, containsKey acc kv.1 = false := by
      intro kv hkv
      cases hb : containsKey acc kv.1 with
      | false => rfl
      | true =>
        exfalso
        exact hdisj ((containsKey_iff acc kv.1).mp hb)
          (List.mem_append_left _ (List.mem_map_of_mem Prod.fst hkv))
    rw [foldl_extractStep_block m c acc (hwf c (List.mem_cons_self _ _)) hdisc hndc]
    have hnd' : ((acc ++ (itemsFor m c).map (fun kv => (kv.1, kv.1))).map Prod.fst ++
        ((cs'.map (itemsFor m)).flatten).map Prod.fst).Nodup := by
      rw [List.map_append]
      have hpassk : ((itemsFor m c).map (fun kv => (kv.1, kv.1))).map Prod.fst =
          (itemsFor m c).map Prod.fst := by
        simp [List.map_map, Function.comp]
      rw [hpassk, List.append_assoc]
      exact hnd
    rw [ih (acc ++ (itemsFor m c).map (fun kv => (kv.1, kv.1)))
      (fun c2 hc2 => hwf c2 (List.mem_cons_of_mem _ hc2)) hnd']
    simp [List.append_assoc]

/-- The category assignment always lands inside the configured category list. -/
theorem catOf_mem_catNames (k : Str) : catOf k ∈ catNames := by
  unfold catOf
  repeat' split
  all_goals decide

/-- The emitted items of all categories carry pairwise distinct keys when the
master does. -/
theorem orderedItems_keys_nodup (m : List (Str × Str))
    (hnd : (m.map Prod.fst).Nodup) :
    ((orderedItems m).map Prod.fst).Nodup := by
  unfold orderedItems
  rw [List.map_flatten, List.map_map, List.nodup_flatten]
  constructor
  · intro l hl
    obtain ⟨c, -, rfl⟩ := List.mem_map.mp hl
    have hsort : ((sortPairs m).map Prod.fst).Nodup :=
      ((sortPairs_perm m).map Prod.fst).nodup_iff.mpr hnd
    exact ((List.filter_sublist _).map Prod.fst).nodup hsort
  · rw [List.pairwise_map]
    have hcn : catNames.Nodup := by decide
    refine hcn.imp ?_
    intro c1 c2 hne k hk1 hk2
    simp only [Function.comp] at hk1 hk2
    obtain ⟨kv1, hkv1, rfl⟩ := List.mem_map.mp hk1
    obtain ⟨kv2, hkv2, heq⟩ := List.mem_map.mp hk2
    unfold itemsFor at hkv1 hkv2
    have h1 : catOf kv1.1 = c1 := beq_iff_eq.mp (List.mem_filter.mp hkv1).2
    have h2 : catOf kv2.1 = c2 := beq_iff_eq.mp (List.mem_filter.mp hkv2).2
    exact hne (h1 ▸ heq ▸ h2)

/-- Keys of the categorized emission are exactly the master keys. -/
theorem mem_orderedItems_keys (m : List (Str × Str)) (k : Str) :
    k ∈ (orderedItems m).map Prod.fst ↔ k ∈ m.map Prod.fst := by
  unfold orderedItems
  constructor
  · intro h
    obtain ⟨kv, hkv, rfl⟩ := List.mem_map.mp h
    obtain ⟨l, hl, hkvl⟩ := List.mem_flatten.mp hkv
    obtain ⟨c, -, rfl⟩ := List.mem_map.mp hl
    unfold itemsFor at hkvl
    exact List.mem_map_of_mem Prod.fst
      ((sortPairs_perm m).mem_iff.mp (List.mem_filter.mp hkvl).1)
  · intro h
    obtain ⟨kv, hkv, rfl⟩ := List.mem_map.mp h
    refine List.mem_map_of_mem Prod.fst ?_
    rw [List.mem_flatten]
    refine ⟨itemsFor m (catOf kv.1), List.mem_map_of_mem _ (catOf_mem_catNames kv.1), ?_⟩
    unfold itemsFor
    rw [List.mem_filter]
    exact ⟨(sortPairs_perm m).mem_iff.mpr hkv, beq_iff_eq.mpr rfl⟩

/-- Sums of pointwise added maps split into two sums. -/
theorem sum_map_add (names : List Str) (f g : Str → Nat) :
    (names.map (fun c => f c + g c)).sum = (names.map f).sum + (names.map g).sum := by
  induction names with
  | nil => rfl
  | cons c cs ih =>
    simp only [List.map_cons, List.sum_cons, ih]
    omega

/-- An absent string contributes nothing to the indicator sum. -/
theorem count_zero_sum (names : List Str) (x : Str) (hx : x ∉ names) :
    (names.map (fun c => if x == c then (1 : Nat) else 0)).sum = 0 := by
  induction names with
  | nil => rfl
  | cons c cs ih =>
    rw [List.map_cons, List.sum_cons]
    rw [if_neg (fun h => hx (by rw [beq_iff_eq.mp h]; exact List.mem_cons_self _ _))]
    rw [ih (fun h => hx (List.mem_cons_of_mem _ h))]

/-- A member of a duplicate-free list contributes exactly one to the
indicator sum. -/
theorem count_one_sum (names : List Str) (x : Str) (hnd : names.Nodup)
    (hx : x ∈ names) :
    (names.map (fun c => if x == c then (1 : Nat) else 0)).sum = 1 := by
  induction names with
  | nil => cases hx
  | cons c cs ih =>
    rw [List.map_cons, List.sum_cons]
    by_cases h : x = c
    · subst h
      rw [if_pos (beq_self_eq_true x), count_zero_sum cs x (List.nodup_cons.mp hnd).1]
    · rw [if_neg (fun hb => h (beq_iff_eq.mp hb))]
      have hxcs : x ∈ cs := (List.mem_cons.mp hx).resolve_left h
      rw [ih (List.nodup_cons.mp hnd).2 hxcs]

/-- Partitioning a list over the category names preserves its length. -/
theorem flatten_filter_length (l : List (Str × Str)) :
    ((catNames.map (fun c => l.filter (fun kv => catOf kv.1 == c))).flatten).length
      = l.length := by
  induction l with
  | nil => simp
  | cons kv l ih =>
    rw [List.length_flatten, List.map_map] at *
    have hstep : ∀ c ∈ catNames,
        (List.length ∘ fun c => (kv :: l).filter (fun kv2 => catOf kv2.1 == c)) c =
          (fun c => (if catOf kv.1 == c then (1 : Nat) else 0) +
            (List.length ∘ fun c2 => l.filter (fun kv2 => catOf kv2.1 == c2)) c) c := by
      intro c _
      simp only [Function.comp_apply, List.filter_cons]
      split
      · simp [Nat.add_comm]
      · simp
    rw [List.map_congr_left hstep, sum_map_add]
    rw [count_one_sum catNames (catOf kv.1) (by decide) (catOf_mem_catNames kv.1), ih]
    simp [Nat.add_comm]

/-- The categorized emission has exactly one item per master entry. -/
theorem orderedItems_length (m : List (Str × Str)) :
    (orderedItems m).length = m.length := by
  unfold orderedItems itemsFor
  rw [flatten_filter_length (sortPairs m)]
  exact (sortPairs_perm m).length_eq

/-- A record line of newline-free key and value contains no newline. -/
theorem newline_not_mem_recordLine (k v : Str) (hk : '\n' ∉ k) (hv : '\n' ∉ v) :
    '\n' ∉ recordLine k v := by
  unfold recordLine
  intro h
  rcases List.mem_cons.mp h with h | h
  · exact absurd h (by decide)
  rcases List.mem_append.mp h with h | h
  · exact hk h
  rcases List.mem_cons.mp h with h | h
  · exact absurd h (by decide)
  rcases List.mem_cons.mp h with h | h
  · exact absurd h (by decide)
  rcases List.mem_cons.mp h with h | h
  · exact absurd h (by decide)
  rcases List.mem_cons.mp h with h | h
  · exact absurd h (by decide)
  rcases List.mem_cons.mp h with h | h
  · exact absurd h (by decide)
  rcases List.mem_append.mp h with h | h
  · exact hv h
  · exact absurd h (by decide)

/-- Parsing the generated English file of a wellformed master store recovers
exactly the pass-through pairs of the categorized sorted keys. -/
theorem extract_of_generate (m : List (Str × Str)) (hm : wfStore m) :
    extract_keys_from_master (generate_english_from_keys m) =
      (orderedItems m).map (fun kv => (kv.1, kv.1)) := by
  obtain ⟨hwfm, hndm⟩ := hm
  have hmemitems : ∀ c, ∀ kv ∈ itemsFor m c, kv ∈ m := by
    intro c kv hkv
    unfold itemsFor at hkv
    exact (sortPairs_perm m).mem_iff.mp (List.mem_filter.mp hkv).1
  have hnonl : ∀ x ∈ generateLines m, '\n' ∉ x := by
    intro x hx
    unfold generateLines at hx
    rcases List.mem_cons.mp hx with rfl | hx
    · decide
    rcases List.mem_cons.mp hx with rfl | hx
    · simp
    obtain ⟨bl, hbl, hxbl⟩ := List.mem_flatten.mp hx
    obtain ⟨c, hc, rfl⟩ := List.mem_map.mp hbl
    unfold blockFor at hxbl
    split at hxbl
    · cases hxbl
    rcases List.mem_cons.mp hxbl with rfl | hxbl
    · have hall : ∀ c2 ∈ catNames, '\n' ∉ (S "/* " ++ c2 ++ S " */") := by decide
      exact hall c hc
    rcases List.mem_append.mp hxbl with hxrec | hxnil
    · obtain ⟨kv, hkv, rfl⟩ := List.mem_map.mp hxrec
      have hnl := (hwfm kv (hmemitems c kv hkv)).2.2
      exact newline_not_mem_recordLine kv.1 kv.1 hnl hnl
    · rw [List.mem_singleton.mp hxnil]
      simp
  unfold extract_keys_from_master generate_english_from_keys
  rw [splitNl_joinNl (generateLines m) (by unfold generateLines; simp) hnonl]
  unfold extractLines generateLines
  rw [List.foldl_cons, List.foldl_cons]
  have hhdr : extractStep []
      (S "/* VoiceInk English Localization - Auto-generated from Chinese master file */")
        = [] := by decide
  rw [hhdr, extractStep_blank]
  have hwfall : ∀ c ∈ catNames, ∀ kv ∈ itemsFor m c, kv.1 ≠ [] ∧ '"' ∉ kv.1 := by
    intro c _ kv hkv
    obtain ⟨h1, h2, -⟩ := hwfm kv (hmemitems c kv hkv)
    exact ⟨h1, h2⟩
  have hndall : (([] : List (Str × Str)).map Prod.fst ++
      (((catNames.map (itemsFor m)).flatten).map Prod.fst)).Nodup := by
    rw [List.map_nil, List.nil_append]
    have := orderedItems_keys_nodup m hndm
    unfold orderedItems at this
    exact this
  rw [foldl_extractStep_blocks m catNames [] hwfall hndall]
  rw [List.nil_append]
  rfl

/- Claim C3. -/

/-- C3 counterexample: a wellformed one-record resource text parses cleanly,
yet serializing the parsed store does not reproduce the text: the serializer
regenerates headers, categories and pass-through values instead. -/
theorem serialize_parse_not_identity :
    extract_keys_from_master textC3 = [(S "Save", S "保存")] ∧
      generate_english_from_keys (extract_keys_from_master textC3) ≠ textC3 := by
  decide

/-- C3 amended: the round trip holds at the store level, not the text level:
parsing the serialized output of a wellformed parsed store yields exactly the
store's keys in category-grouped sorted order, each mapped to itself under
the pass-through policy; original values, comments and layout are not
preserved. -/
theorem parse_serialize_passthrough (m : List (Str × Str)) (hm : wfStore m) :
    extract_keys_from_master (generate_english_from_keys m) =
      (orderedItems m).map (fun kv => (kv.1, kv.1)) :=
  extract_of_generate m hm

/-- Witness: the store-level round trip at a concrete three-key store. -/
theorem parse_serialize_passthrough_witness :
    wfStore storeC8 ∧
      extract_keys_from_master (generate_english_from_keys storeC8) =
        (orderedItems storeC8).map (fun kv => (kv.1, kv.1)) :=
  ⟨by decide, parse_serialize_passthrough storeC8 (by decide)⟩

/- Claim C8. -/

/-- C8: for a wellformed master store with n keys, the generated English file
parses back to exactly n records, every record's value equals its key, and
the key sets of the generated store and the master coincide, so the
validation reports zero orphan and zero missing keys. -/
theorem english_passthrough_count_orphans (m : List (Str × Str)) (hm : wfStore m) :
    (extract_keys_from_master (generate_english_from_keys m)).length = m.length ∧
      (∀ kv ∈ extract_keys_from_master (generate_english_from_keys m), kv.2 = kv.1) ∧
      ∀ k, containsKey (extract_keys_from_master (generate_english_from_keys m)) k =
        containsKey m k := by
  rw [extract_of_generate m hm]
  refine ⟨?_, ?_, ?_⟩
  · rw [List.length_map, orderedItems_length]
  · intro kv hkv
    obtain ⟨kv0, -, hkv0⟩ := List.mem_map.mp hkv
    rw [← hkv0]
  · intro k
    rw [Bool.eq_iff_iff, containsKey_iff, containsKey_iff]
    have hkeys : ((orderedItems m).map (fun kv => (kv.1, kv.1))).map Prod.fst =
        (orderedItems m).map Prod.fst := by
      simp [List.map_map, Function.comp]
    rw [hkeys]
    exact mem_orderedItems_keys m k

/-- Witness: the pass-through generation at a concrete three-key store. -/
theorem english_passthrough_count_orphans_witness :
    wfStore storeC8 ∧
      ((extract_keys_from_master (generate_english_from_keys storeC8)).length =
          storeC8.length ∧
        (∀ kv ∈ extract_keys_from_master (generate_english_from_keys storeC8),
          kv.2 = kv.1) ∧
        ∀ k, containsKey (extract_keys_from_master (generate_english_from_keys storeC8)) k =
          containsKey storeC8 k) :=
  ⟨by decide, english_passthrough_count_orphans storeC8 (by decide)⟩
